import Mathlib

/-!
Verification of `hypergraph` (pomset.py, hypergraph.py).

Shallow embedding of the Python reference implementation (Python 2.7 semantics,
numpy array semantics made explicit).  Python exceptions are modelled by the
`PyErr` type; a mutating method returns the object state at the moment control
leaves the method (on an exception this is the partially-mutated state, since
the Python object survives the raise) together with `Option PyErr`.

Key low-level facts of the source that the embedding reproduces:

* `POMSet.add_label` copies the old order matrix with `new_order[:-1][:-1] = self.order`.
  `new_order[:-1]` is a view of all rows but the last, and `[:-1]` of that view drops
  one more row, so the target of the assignment has shape `(m-2, m)` where `m` is the
  new size.  Numpy assigns `src` into a target of shape `(r, c)` only when each source
  dimension equals the target dimension or equals 1 (broadcasting); otherwise it raises
  `ValueError`.  With a square source of side `osize` this succeeds only when
  `osize = 1`, in which case the single entry is broadcast over the first `m-2` rows.

* `POMSet._indices_strictly_above` / `_indices_strictly_below` evaluate
  `np.where[...]`, i.e. they subscript the *function* `np.where` instead of calling
  it, which raises `TypeError`.  They are reached only when `_is_unordered` is false
  (they return an empty index array otherwise), and only after the occurrence lookup
  on their first line has succeeded.

* The four pairwise predicates (`weakly_greater_than`, ...) read the undefined names
  `element_index1` / `element_index2` (the parameters are `element1_index` /
  `element2_index`), raising `NameError` whenever the `_is_unordered` early return
  is not taken.

* `np.where(self.labels == e)[0]` is the ascending list of positions holding `e`;
  indexing it with an occurrence index `≥` the multiplicity raises `IndexError`.
-/

set_option linter.unusedVariables false
set_option linter.unusedSectionVars false

namespace HypergraphModel

/-- Python exception kinds observed by the modelled code paths. -/
inductive PyErr where
  | typeError
  | valueError
  | indexError
  | nameError
  | keyError
  | assertionError
  deriving DecidableEq, Repr

instance {ε σ : Type} [DecidableEq ε] [DecidableEq σ] : DecidableEq (Except ε σ) := fun a b =>
  match a, b with
  | .error x, .error y =>
    if h : x = y then isTrue (congrArg Except.error h)
    else isFalse (fun hh => h (Except.error.inj hh))
  | .ok x, .ok y =>
    if h : x = y then isTrue (congrArg Except.ok h)
    else isFalse (fun hh => h (Except.ok.inj hh))
  | .error x, .ok y => isFalse (fun hh => Except.noConfusion hh)
  | .ok x, .error y => isFalse (fun hh => Except.noConfusion hh)

/-- State of `pomset.POMSet`.  `labels` is the occurrence list, `size` the cached
`self.size`, `support` the cached `self.support` (a python set, modelled as a
duplicate-free list), `order` the numpy matrix as a total function with its actual
dimension `osize` (the matrix is square of side `osize`; values of `order` outside
that square are irrelevant), `is_unordered` the `_is_unordered` flag.
The `cardinality` attribute (`len(self.support)`) and the `_is_bipartitite` /
`_bipartition` attributes are omitted: no modelled operation reads them. -/
structure POMSet (α : Type) where
  labels : List α
  size : Nat
  support : List α
  order : Nat → Nat → Int
  osize : Nat
  is_unordered : Bool

variable {α : Type} [DecidableEq α]

/-- Python `set(l)` as a duplicate-free list (membership is all that matters). -/
def pySet (l : List α) : List α :=
  l.foldl (fun acc x => if x ∈ acc then acc else acc ++ [x]) []

/-- Python `s.add(x)` on a set modelled as a duplicate-free list. -/
def pySetAdd (s : List α) (x : α) : List α :=
  if x ∈ s then s else s ++ [x]

/-- The ascending list of positions of `e` in `l`: `np.where(l == e)[0]`. -/
def occPositions (e : α) : List α → List Nat
  | [] => []
  | a :: l =>
    if a = e then 0 :: (occPositions e l).map (· + 1)
    else (occPositions e l).map (· + 1)

/-- `np.where(labels == e)[0][idx]`: `none` models the `IndexError` raised when the
occurrence index is at least the multiplicity. -/
def lookupOcc (s : POMSet α) (e : α) (idx : Nat) : Option Nat :=
  (occPositions e s.labels).get? idx

/-- `POMSet.multiplicity`: `np.sum(self.labels == element)`. -/
def multiplicity (s : POMSet α) (e : α) : Nat :=
  s.labels.count e

/-- `labels[mask]` where `mask j = p (order[i, j])` runs over the matrix row `i`
(length `osize`). -/
def maskSelect (s : POMSet α) (p : Int → Bool) (i : Nat) : List α :=
  (List.range s.osize).filterMap (fun j => if p (s.order i j) then s.labels.get? j else none)

/-- `POMSet.__init__(labels)` with `order=None`, `bipartition=None`. -/
def POMSet.init (labels : List α) : POMSet α :=
  { labels := labels
    size := labels.length
    support := pySet labels
    order := fun _ _ => 0
    osize := labels.length
    is_unordered := true }

/-- `np.all(order == 0)` over a square matrix of side `n`. -/
def matAllZero (n : Nat) (A : Nat → Nat → Int) : Bool :=
  (List.range n).all (fun i => (List.range n).all (fun j => decide (A i j = 0)))

/-- `POMSet.__init__(labels, order)` with an explicit order matrix of side `dim`.
The constructor asserts `order.shape[0] == len(labels)`; bipartiteness detection only
sets attributes no modelled operation reads. -/
def POMSet.initWithOrder (labels : List α) (dim : Nat) (A : Nat → Nat → Int) :
    Except PyErr (POMSet α) :=
  if dim = labels.length then
    .ok { labels := labels
          size := labels.length
          support := pySet labels
          order := A
          osize := dim
          is_unordered := matAllZero dim A }
  else .error .assertionError

/-- Shared tail of the four above/below queries once the occurrence lookup has run:
`IndexError` when the lookup failed, else `labels[mask]` over the matrix row (the
boolean mask has length `osize`, which numpy requires to match `len(labels)`,
raising `IndexError` otherwise). -/
def rowQueryAt (s : POMSet α) (p : Int → Bool) : Option Nat → Except PyErr (List α)
  | none => .error .indexError
  | some i =>
    if s.labels.length = s.osize then .ok (maskSelect s p i)
    else .error .indexError

/-- Shared shape of the four above/below queries: unordered POMSets return their
default (`labels.copy()` or the empty array) before any index validation; otherwise
resolve the occurrence and select by the row mask. -/
def rowQuery (s : POMSet α) (dflt : List α) (p : Int → Bool) (e : α) (idx : Nat) :
    Except PyErr (List α) :=
  if s.is_unordered then .ok dflt
  else rowQueryAt s p (lookupOcc s e idx)

/-- `POMSet.weakly_above(element, element_index)`: unordered default is the whole
label list; mask `~(order[i] == -1)`. -/
def weakly_above (s : POMSet α) (e : α) (idx : Nat) : Except PyErr (List α) :=
  rowQuery s s.labels (fun v => !(v = -1 : Bool)) e idx

/-- `POMSet.strictly_above(element, element_index)`: unordered default is empty;
mask `order[i] == 1`. -/
def strictly_above (s : POMSet α) (e : α) (idx : Nat) : Except PyErr (List α) :=
  rowQuery s [] (fun v => decide (v = 1)) e idx

/-- `POMSet.weakly_below(element, element_index)`: unordered default is the whole
label list; mask `~(order[i] == 1)`. -/
def weakly_below (s : POMSet α) (e : α) (idx : Nat) : Except PyErr (List α) :=
  rowQuery s s.labels (fun v => !(v = 1 : Bool)) e idx

/-- `POMSet.strictly_below(element, element_index)`: unordered default is empty;
mask `order[i] == -1`. -/
def strictly_below (s : POMSet α) (e : α) (idx : Nat) : Except PyErr (List α) :=
  rowQuery s [] (fun v => decide (v = -1)) e idx

/-- `POMSet.weakly_greater_than`: the unordered early return yields `True`; otherwise
line 282 evaluates the undefined name `element_index1` and raises `NameError` (the
preceding `np.where(self.labels == element1)` cannot fail). -/
def weakly_greater_than (s : POMSet α) (e1 e2 : α) (i1 i2 : Nat) : Except PyErr Bool :=
  if s.is_unordered then .ok true else .error .nameError

/-- `POMSet.strictly_greater_than`: unordered early return `False`, otherwise
`NameError` from the undefined `element_index1`. -/
def strictly_greater_than (s : POMSet α) (e1 e2 : α) (i1 i2 : Nat) : Except PyErr Bool :=
  if s.is_unordered then .ok false else .error .nameError

/-- `POMSet.weakly_less_than`: unordered early return `True`, otherwise `NameError`. -/
def weakly_less_than (s : POMSet α) (e1 e2 : α) (i1 i2 : Nat) : Except PyErr Bool :=
  if s.is_unordered then .ok true else .error .nameError

/-- `POMSet.strictly_less_than`: unordered early return `False`, otherwise `NameError`. -/
def strictly_less_than (s : POMSet α) (e1 e2 : α) (i1 i2 : Nat) : Except PyErr Bool :=
  if s.is_unordered then .ok false else .error .nameError

/-- Write one matrix entry: `self.order[i, j] = v`. -/
def setOrd (s : POMSet α) (i j : Nat) (v : Int) : POMSet α :=
  { s with order := fun a b => if a = i ∧ b = j then v else s.order a b }

/-- `POMSet.add_label(new_label)`.

Line 409 `new_label_array[:-1] = self.labels` assigns a length-`len(labels)` source
into a length-`self.size` target, which succeeds iff the lengths agree or the source
has length 1 (broadcast).  Line 419 `new_order[:-1][:-1] = self.order` assigns the
old square matrix (side `osize`) into a view of shape `(m-2, m)` where
`m = self.size` after the update on line 414; per the broadcasting rule this succeeds
iff `osize = 1`, broadcasting the single entry over the first `m-2` rows (for the
well-formed sizes 0 and `≥ 2` it raises `ValueError`, after `labels`, `size` and
`support` have already been updated and before `self.order` is replaced).
`add_label_go` is the tail of the method from line 411 on, with the new label list
already built; `add_label` performs the line-409 broadcast. -/
def add_label_go (s : POMSet α) (v : α) (newLabels : List α) : POMSet α × Option PyErr :=
  let m := newLabels.length
  let s1 : POMSet α :=
    { s with labels := newLabels, size := m, support := pySetAdd s.support v }
  if s.osize = 1 then
    ({ s1 with order := fun a b => if a < m - 2 then s.order 0 0 else 0, osize := m }, none)
  else (s1, some .valueError)

def add_label (s : POMSet α) (v : α) : POMSet α × Option PyErr :=
  if s.labels.length = s.size then add_label_go s v (s.labels ++ [v])
  else match s.labels with
    | [x] => add_label_go s v (List.replicate s.size x ++ [v])
    | _ => (s, some .valueError)

/-- `POMSet.add_dependency(from_label, to_label, from_index, to_index)`.

Both occurrence lookups happen first (`IndexError` leaves the state untouched).
The two direct entries are then written (numpy checks the indices against the
matrix side first).  The transitive-propagation lines call
`_indices_strictly_above` / `_indices_strictly_below`: when the `_is_unordered`
flag is still set these return empty index arrays and the masked assignments are
no-ops, after which the flag is cleared; otherwise the first helper raises
`TypeError` (`np.where` subscripted, see the header comment) with the two direct
entries already written and the flag untouched. -/
def add_dependency (s : POMSet α) (fl tl : α) (fi ti : Nat) : POMSet α × Option PyErr :=
  match lookupOcc s fl fi with
  | none => (s, some .indexError)
  | some f =>
    match lookupOcc s tl ti with
    | none => (s, some .indexError)
    | some t =>
      if f < s.osize ∧ t < s.osize then
        let s2 := setOrd (setOrd s f t (-1)) t f 1
        if s.is_unordered then ({ s2 with is_unordered := false }, none)
        else (s2, some .typeError)
      else (s, some .indexError)

/-- `POMSet.remove_dependency(from_label, to_label, from_index, to_index)`:
lookups, zero the two direct entries, then re-derive `_is_unordered` from
`np.all(self.order == 0)` (the flag is only ever set, never cleared, here). -/
def remove_dependency (s : POMSet α) (fl tl : α) (fi ti : Nat) : POMSet α × Option PyErr :=
  match lookupOcc s fl fi with
  | none => (s, some .indexError)
  | some f =>
    match lookupOcc s tl ti with
    | none => (s, some .indexError)
    | some t =>
      if f < s.osize ∧ t < s.osize then
        let s2 := setOrd (setOrd s f t 0) t f 0
        if matAllZero s2.osize s2.order then ({ s2 with is_unordered := true }, none)
        else (s2, none)
      else (s, some .indexError)

/-- Position shift performed by deleting position `p`: for `k` below the new length,
`selection[k] = k` if `k < p` else `k + 1`. -/
def shiftIdx (p k : Nat) : Nat :=
  if k < p then k else k + 1

/-- `POMSet.remove_label(label_to_remove, label_index)` (Python 2 semantics: the
`range(..) + range(..)` concatenation builds the `selection` index list).

After the occurrence lookup, `selection = range(p) ++ range(p+1, osize)`; fancy
indexing the order matrix requires every selected index `< osize` (else
`IndexError` with nothing mutated), and `selection[k] = shiftIdx p k` on the new
square of side `selection.length`.  The subsequent `self.labels[selection]`
requires every selected index `< len(labels)` (else `IndexError` with the order
already replaced).  `size`, `support` and `_is_unordered` are not updated. -/
def remove_label (s : POMSet α) (lbl : α) (idx : Nat) : POMSet α × Option PyErr :=
  match lookupOcc s lbl idx with
  | none => (s, some .indexError)
  | some p =>
    let selection := List.range p ++ List.range' (p + 1) (s.osize - (p + 1))
    if selection.all (fun k => decide (k < s.osize)) then
      let s1 : POMSet α :=
        { s with order := fun a b => s.order (shiftIdx p a) (shiftIdx p b)
                 osize := selection.length }
      if selection.all (fun k => decide (k < s.labels.length)) then
        ({ s1 with labels := selection.filterMap (s.labels.get? ·) }, none)
      else (s1, some .indexError)
    else (s, some .indexError)

/-- Every recorded occurrence position really holds the element. -/
theorem occPositions_get (e : α) : ∀ (l : List α), ∀ p ∈ occPositions e l, l.get? p = some e := by
  intro l
  induction l with
  | nil => intro p hp; simp [occPositions] at hp
  | cons a l ih =>
    intro p hp
    by_cases ha : a = e
    · simp [occPositions, ha] at hp
      rcases hp with h0 | ⟨q, hq, rfl⟩
      · subst h0; simp [ha]
      · simpa using ih q hq
    · simp [occPositions, ha] at hp
      rcases hp with ⟨q, hq, rfl⟩
      simpa using ih q hq

/-- Occurrence positions are strictly increasing. -/
theorem occPositions_sorted (e : α) : ∀ (l : List α), (occPositions e l).Pairwise (· < ·) := by
  intro l
  induction l with
  | nil => simp [occPositions]
  | cons a l ih =>
    by_cases ha : a = e
    · simp only [occPositions, if_pos ha]
      refine List.Pairwise.cons ?_ ?_
      · intro b hb
        simp only [List.mem_map] at hb
        obtain ⟨q, _, rfl⟩ := hb
        omega
      · exact (List.pairwise_map).2 (ih.imp (fun h => by omega))
    · simp only [occPositions, if_neg ha]
      exact (List.pairwise_map).2 (ih.imp (fun h => by omega))

theorem occPositions_nodup (e : α) (l : List α) : (occPositions e l).Nodup :=
  (occPositions_sorted e l).imp (fun h => Nat.ne_of_lt h)

/-- If two occurrence addresses resolve to the same position, they were the same
(value, occurrence-index) address. -/
theorem lookupOcc_inj (s : POMSet α) (fl tl : α) (fi ti : Nat) (p : Nat)
    (hf : lookupOcc s fl fi = some p) (ht : lookupOcc s tl ti = some p) :
    fl = tl ∧ fi = ti := by
  have hmemf : p ∈ occPositions fl s.labels := List.get?_mem hf
  have hmemt : p ∈ occPositions tl s.labels := List.get?_mem ht
  have h1 : s.labels.get? p = some fl := occPositions_get fl s.labels p hmemf
  have h2 : s.labels.get? p = some tl := occPositions_get tl s.labels p hmemt
  have hft : fl = tl := by
    rw [h1] at h2; exact Option.some.inj h2
  subst hft
  refine ⟨rfl, ?_⟩
  have hf' : (occPositions fl s.labels).get? fi = some p := hf
  have ht' : (occPositions fl s.labels).get? ti = some p := ht
  have hlen : fi < (occPositions fl s.labels).length := by
    obtain ⟨hh, _⟩ := List.get?_eq_some.mp hf'
    exact hh
  exact List.get?_inj hlen (occPositions_nodup fl s.labels) (by rw [hf', ht'])

/-- Antisymmetry of the order matrix together with an all-`unrelated` diagonal:
`order[i,j] = 1 ⇔ order[j,i] = -1` and `order[i,i] = 0` over the matrix square. -/
def Antisym (s : POMSet α) : Prop :=
  ∀ i < s.osize, ∀ j < s.osize,
    ((s.order i j = 1 ↔ s.order j i = -1) ∧ (i = j → s.order i j = 0))

instance (s : POMSet α) : Decidable (Antisym s) :=
  inferInstanceAs (Decidable (∀ i < s.osize, ∀ j < s.osize, _ ∧ _))

/-- Executable antisymmetry check. -/
def antisymB (s : POMSet α) : Bool := decide (Antisym s)

theorem antisymB_iff (s : POMSet α) : antisymB s = true ↔ Antisym s := by
  simp [antisymB]

/-- One mutating `POMSet` call. -/
inductive POp (α : Type) where
  | addLabel (v : α)
  | addDep (fl tl : α) (fi ti : Nat)
  | rmLabel (v : α) (i : Nat)
  | rmDep (fl tl : α) (fi ti : Nat)

/-- The state after a call (the Python object persists even when the call raises). -/
def applyOp (s : POMSet α) : POp α → POMSet α
  | .addLabel v => (add_label s v).1
  | .addDep fl tl fi ti => (add_dependency s fl tl fi ti).1
  | .rmLabel v i => (remove_label s v i).1
  | .rmDep fl tl fi ti => (remove_dependency s fl tl fi ti).1

def runOps (s : POMSet α) (ops : List (POp α)) : POMSet α :=
  ops.foldl applyOp s

/-- An `add_dependency` call does not address one single occurrence on both sides. -/
def opOKB : POp α → Bool
  | .addDep fl tl fi ti => !(decide (fl = tl) && decide (fi = ti))
  | _ => true

theorem antisym_add_label_go (s : POMSet α) (v : α) (nl : List α) (h : Antisym s) :
    Antisym (add_label_go s v nl).1 := by
  unfold add_label_go
  dsimp only
  split
  · rename_i hos
    have h00 : s.order 0 0 = 0 := (h 0 (by omega) 0 (by omega)).2 rfl
    have hz : ∀ a b : Nat, (if a < nl.length - 2 then s.order 0 0 else 0) = (0 : Int) := by
      intro a b
      rw [h00]
      split <;> rfl
    intro i hi j hj
    refine ⟨?_, ?_⟩
    · show ((if i < nl.length - 2 then s.order 0 0 else 0) = 1 ↔
        (if j < nl.length - 2 then s.order 0 0 else 0) = -1)
      rw [hz i j, hz j i]
      norm_num
    · intro _
      show (if i < nl.length - 2 then s.order 0 0 else 0) = 0
      exact hz i j
  · exact h

theorem antisym_add_label (s : POMSet α) (v : α) (h : Antisym s) :
    Antisym (add_label s v).1 := by
  unfold add_label
  split
  · exact antisym_add_label_go s v _ h
  · split
    · exact antisym_add_label_go s v _ h
    · exact h

theorem antisym_setPair (s : POMSet α) (f t : Nat) (hne : f ≠ t) (h : Antisym s) :
    Antisym (setOrd (setOrd s f t (-1)) t f 1) := by
  intro i hi j hj
  simp only [setOrd]
  refine ⟨?_, ?_⟩
  · by_cases c1 : i = t ∧ j = f
    · have c1' : j = f ∧ i = t := ⟨c1.2, c1.1⟩
      have nc : ¬(j = t ∧ i = f) := by
        rintro ⟨h1, _⟩
        exact hne (by rw [← c1.2]; exact h1)
      rw [if_pos c1, if_neg nc, if_pos c1']
      norm_num
    · by_cases c2 : i = f ∧ j = t
      · have c2' : j = t ∧ i = f := ⟨c2.2, c2.1⟩
        rw [if_neg c1, if_pos c2, if_pos c2']
        norm_num
      · have nc1 : ¬(j = t ∧ i = f) := fun hh => c2 ⟨hh.2, hh.1⟩
        have nc2 : ¬(j = f ∧ i = t) := fun hh => c1 ⟨hh.2, hh.1⟩
        rw [if_neg c1, if_neg c2, if_neg nc1, if_neg nc2]
        exact (h i hi j hj).1
  · intro hij
    have nd1 : ¬(i = t ∧ j = f) := by
      rintro ⟨h1, h2⟩
      exact hne (by rw [← h2, ← hij]; exact h1)
    have nd2 : ¬(i = f ∧ j = t) := by
      rintro ⟨h1, h2⟩
      exact hne (by rw [← h1, hij]; exact h2)
    rw [if_neg nd1, if_neg nd2]
    exact (h i hi j hj).2 hij

theorem antisym_zeroPair (s : POMSet α) (f t : Nat) (h : Antisym s) :
    Antisym (setOrd (setOrd s f t 0) t f 0) := by
  intro i hi j hj
  simp only [setOrd]
  have zval : ∀ a b : Nat, (a = t ∧ b = f) ∨ (a = f ∧ b = t) →
      (if a = t ∧ b = f then (0 : Int) else if a = f ∧ b = t then 0 else s.order a b) = 0 := by
    intro a b hab
    rcases hab with hab | hab
    · rw [if_pos hab]
    · by_cases h1 : a = t ∧ b = f
      · rw [if_pos h1]
      · rw [if_neg h1, if_pos hab]
  refine ⟨?_, ?_⟩
  · by_cases c1 : (i = t ∧ j = f) ∨ (i = f ∧ j = t)
    · have c1' : (j = t ∧ i = f) ∨ (j = f ∧ i = t) := by
        rcases c1 with ⟨h1, h2⟩ | ⟨h1, h2⟩
        · exact Or.inr ⟨h2, h1⟩
        · exact Or.inl ⟨h2, h1⟩
      rw [zval i j c1, zval j i c1']
      norm_num
    · have nc1 : ¬(i = t ∧ j = f) := fun hh => c1 (Or.inl hh)
      have nc2 : ¬(i = f ∧ j = t) := fun hh => c1 (Or.inr hh)
      have nc1' : ¬(j = t ∧ i = f) := fun hh => c1 (Or.inr ⟨hh.2, hh.1⟩)
      have nc2' : ¬(j = f ∧ i = t) := fun hh => c1 (Or.inl ⟨hh.2, hh.1⟩)
      rw [if_neg nc1, if_neg nc2, if_neg nc1', if_neg nc2']
      exact (h i hi j hj).1
  · intro hij
    by_cases c1 : (i = t ∧ j = f) ∨ (i = f ∧ j = t)
    · exact zval i j c1
    · have nc1 : ¬(i = t ∧ j = f) := fun hh => c1 (Or.inl hh)
      have nc2 : ¬(i = f ∧ j = t) := fun hh => c1 (Or.inr hh)
      rw [if_neg nc1, if_neg nc2]
      exact (h i hi j hj).2 hij

theorem antisym_add_dependency (s : POMSet α) (fl tl : α) (fi ti : Nat)
    (h : Antisym s) (hne : ¬(fl = tl ∧ fi = ti)) :
    Antisym (add_dependency s fl tl fi ti).1 := by
  unfold add_dependency
  cases hf : lookupOcc s fl fi with
  | none => exact h
  | some f =>
    cases ht : lookupOcc s tl ti with
    | none => exact h
    | some t =>
      dsimp only
      split
      · have hft : f ≠ t := by
          intro hEq
          subst hEq
          exact hne (lookupOcc_inj s fl tl fi ti f hf ht)
        split
        · exact antisym_setPair s f t hft h
        · exact antisym_setPair s f t hft h
      · exact h

theorem antisym_remove_dependency (s : POMSet α) (fl tl : α) (fi ti : Nat)
    (h : Antisym s) : Antisym (remove_dependency s fl tl fi ti).1 := by
  unfold remove_dependency
  cases hf : lookupOcc s fl fi with
  | none => exact h
  | some f =>
    cases ht : lookupOcc s tl ti with
    | none => exact h
    | some t =>
      dsimp only
      split
      · split
        · exact antisym_zeroPair s f t h
        · exact antisym_zeroPair s f t h
      · exact h

theorem antisym_remove_label (s : POMSet α) (lbl : α) (idx : Nat) (h : Antisym s) :
    Antisym (remove_label s lbl idx).1 := by
  unfold remove_label
  cases hp : lookupOcc s lbl idx with
  | none => exact h
  | some p =>
    dsimp only
    split
    · rename_i hall
      have hple : p ≤ s.osize := by
        by_contra hgt
        push_neg at hgt
        have : s.osize ∈ List.range p ++ List.range' (p + 1) (s.osize - (p + 1)) := by
          apply List.mem_append_left
          exact List.mem_range.2 hgt
        have := List.all_eq_true.mp hall _ this
        simp at this
      have hlen : (List.range p ++ List.range' (p + 1) (s.osize - (p + 1))).length
          = p + (s.osize - (p + 1)) := by
        simp
      have hshift : ∀ k, k < p + (s.osize - (p + 1)) → shiftIdx p k < s.osize := by
        intro k hk
        unfold shiftIdx
        split <;> omega
      have core : Antisym
          { s with order := fun a b => s.order (shiftIdx p a) (shiftIdx p b)
                   osize := (List.range p ++ List.range' (p + 1) (s.osize - (p + 1))).length } := by
        intro i hi j hj
        simp only [hlen] at hi hj
        simp only []
        constructor
        · exact (h _ (hshift i hi) _ (hshift j hj)).1
        · intro hij; subst hij
          exact (h _ (hshift i hi) _ (hshift i hi)).2 rfl
      split
      · exact core
      · exact core
    · exact h

theorem antisym_applyOp (s : POMSet α) (op : POp α) (h : Antisym s)
    (hop : opOKB op = true) : Antisym (applyOp s op) := by
  cases op with
  | addLabel v => exact antisym_add_label s v h
  | addDep fl tl fi ti =>
    apply antisym_add_dependency s fl tl fi ti h
    intro ⟨h1, h2⟩
    simp [opOKB, h1, h2] at hop
  | rmLabel v i => exact antisym_remove_label s v i h
  | rmDep fl tl fi ti => exact antisym_remove_dependency s fl tl fi ti h

theorem antisym_runOps (ops : List (POp α)) (s : POMSet α) (h : Antisym s)
    (hops : ops.all opOKB = true) : Antisym (runOps s ops) := by
  induction ops generalizing s with
  | nil => exact h
  | cons op ops ih =>
    simp only [List.all_cons, Bool.and_eq_true] at hops
    exact ih (applyOp s op) (antisym_applyOp s op h hops.1) hops.2

/-- Number of occurrence positions = multiplicity. -/
theorem occPositions_length (e : α) : ∀ (l : List α), (occPositions e l).length = l.count e := by
  intro l
  induction l with
  | nil => simp [occPositions]
  | cons a l ih =>
    by_cases ha : a = e
    · simp [occPositions, ha, ih, List.count_cons]
    · simp [occPositions, ha, ih, List.count_cons]

/-- An occurrence index at or beyond the multiplicity resolves to nothing
(numpy raises `IndexError`). -/
theorem lookupOcc_none (s : POMSet α) (e : α) (i : Nat)
    (h : multiplicity s e ≤ i) : lookupOcc s e i = none := by
  unfold lookupOcc
  rw [List.get?_eq_none]
  rw [occPositions_length]
  exact h

/-- A small ordered POMSet (labels 0 and 1, with 0 recorded strictly below 1),
built through the API; its `_is_unordered` flag is cleared. -/
def orderedPair : POMSet Nat := (add_dependency (POMSet.init [0, 1]) 0 1 0 0).1

/-- C2 (amended): starting from any POMSet whose order matrix is antisymmetric with an
all-`unrelated` diagonal (as every POMSet constructed without an explicit order matrix
is), an arbitrary sequence of `add_label` / `add_dependency` / `remove_label` /
`remove_dependency` calls in which no `add_dependency` addresses one single occurrence
(same value, same occurrence index) as both endpoints leaves the order matrix
antisymmetric with an all-`unrelated` diagonal: `order[i,j] = above ⇔ order[j,i] = below`
and `order[i,i] = unrelated` over the matrix.  This holds through calls that raise,
because a raising call leaves the matrix untouched, writes only the symmetric direct
pair, or restricts to a principal submatrix.  (The original claim fails without the
distinct-endpoint restriction, see the counterexample.) -/
theorem c2_antisymmetry_preserved (s : POMSet α) (ops : List (POp α))
    (h : antisymB s = true) (hops : ops.all opOKB = true) :
    antisymB (runOps s ops) = true :=
  (antisymB_iff _).mpr (antisym_runOps ops s ((antisymB_iff s).mp h) hops)

theorem c2_antisymmetry_preserved_witness :
    antisymB (runOps (POMSet.init ([0, 1, 2] : List Nat))
      [POp.addDep 0 1 0 0, POp.addDep 1 2 0 0, POp.rmLabel 0 0, POp.addLabel 3,
       POp.rmDep 1 2 0 0]) = true :=
  c2_antisymmetry_preserved _ _ (by decide) (by decide)

/-- C2 is false as stated: `add_dependency(v, v, 0, 0)` addresses a valid occurrence on
both sides, and afterwards `relation(0,0) = above` — the diagonal is no longer
`unrelated` (and `relation(0,0) = above` without `relation(0,0) = below`). -/
theorem c2_counterexample :
    (runOps (POMSet.init ([0] : List Nat)) [POp.addDep 0 0 0 0]).order 0 0 = 1 ∧
    0 < (runOps (POMSet.init ([0] : List Nat)) [POp.addDep 0 0 0 0]).osize := by
  decide

/-- C1: transitive closure fails in the code.  On labels `[0,1,2]`,
`add_dependency(0,1)` succeeds but skips propagation (the `_is_unordered` flag is
cleared only at the end of the call, so `_indices_strictly_above/below` return empty);
the next call `add_dependency(1,2)` writes the direct pair and then raises `TypeError`
(`np.where[...]` subscripts the function `np.where`).  Afterwards `0 < 1` and `1 < 2`
are recorded but 0 and 2 are left `unrelated`. -/
theorem c1_transitivity_fails :
    (add_dependency (add_dependency (POMSet.init ([0, 1, 2] : List Nat)) 0 1 0 0).1
        1 2 0 0).2 = some PyErr.typeError ∧
    (add_dependency (add_dependency (POMSet.init ([0, 1, 2] : List Nat)) 0 1 0 0).1
        1 2 0 0).1.order 0 1 = -1 ∧
    (add_dependency (add_dependency (POMSet.init ([0, 1, 2] : List Nat)) 0 1 0 0).1
        1 2 0 0).1.order 1 2 = -1 ∧
    (add_dependency (add_dependency (POMSet.init ([0, 1, 2] : List Nat)) 0 1 0 0).1
        1 2 0 0).1.order 0 2 = 0 := by
  decide

/-- C7: `add_label` on a two-element POMSet raises `ValueError` from the mis-sliced
order copy (`new_order[:-1][:-1]` has shape `(1, 3)`, the source `(2, 2)`), leaving
`labels` already grown to length 3 while the order matrix is still 2×2. -/
theorem c7_add_label_fails :
    (add_label (POMSet.init ([0, 1] : List Nat)) 2).2 = some PyErr.valueError ∧
    (add_label (POMSet.init ([0, 1] : List Nat)) 2).1.labels.length = 3 ∧
    (add_label (POMSet.init ([0, 1] : List Nat)) 2).1.osize = 2 := by
  decide

/-- C5 (amended): on any POMSet whose `_is_unordered` flag is set (every POMSet
constructed without order, or with an all-zero order matrix, or whose last direct
relation was removed by `remove_dependency`), the weak queries return the entire label
list, the strict queries return the empty list, the weak pairwise predicates return
`True` and the strict pairwise predicates return `False`.  The claim's own definition
of "unordered" — every pairwise relation `unrelated` — is strictly wider: a POMSet
can have an all-zero matrix while the flag is stale (see the counterexample), and
there the pairwise predicates raise `NameError` instead. -/
theorem c5_unordered_defaults (s : POMSet α) (e1 e2 : α) (i1 i2 : Nat)
    (h : s.is_unordered = true) :
    weakly_above s e1 i1 = .ok s.labels ∧
    weakly_below s e1 i1 = .ok s.labels ∧
    strictly_above s e1 i1 = .ok [] ∧
    strictly_below s e1 i1 = .ok [] ∧
    weakly_greater_than s e1 e2 i1 i2 = .ok true ∧
    weakly_less_than s e1 e2 i1 i2 = .ok true ∧
    strictly_greater_than s e1 e2 i1 i2 = .ok false ∧
    strictly_less_than s e1 e2 i1 i2 = .ok false := by
  simp [weakly_above, weakly_below, strictly_above, strictly_below, rowQuery,
    weakly_greater_than, weakly_less_than, strictly_greater_than, strictly_less_than, h]

theorem c5_unordered_defaults_witness :
    weakly_above (POMSet.init ([0, 1] : List Nat)) 0 0 = .ok (POMSet.init ([0, 1] : List Nat)).labels ∧
    weakly_below (POMSet.init ([0, 1] : List Nat)) 0 0 = .ok (POMSet.init ([0, 1] : List Nat)).labels ∧
    strictly_above (POMSet.init ([0, 1] : List Nat)) 0 0 = .ok [] ∧
    strictly_below (POMSet.init ([0, 1] : List Nat)) 0 0 = .ok [] ∧
    weakly_greater_than (POMSet.init ([0, 1] : List Nat)) 0 1 0 0 = .ok true ∧
    weakly_less_than (POMSet.init ([0, 1] : List Nat)) 0 1 0 0 = .ok true ∧
    strictly_greater_than (POMSet.init ([0, 1] : List Nat)) 0 1 0 0 = .ok false ∧
    strictly_less_than (POMSet.init ([0, 1] : List Nat)) 0 1 0 0 = .ok false :=
  c5_unordered_defaults (POMSet.init [0, 1]) 0 1 0 0 rfl

/-- C5 is false as stated: after `add_dependency(0,1)` and `remove_label(0)` the
POMSet `[1]` has every pairwise relation `unrelated` (all-zero matrix) — i.e. it is
unordered in the claim's sense — but the stale `_is_unordered` flag is still `False`
(`remove_label` never re-derives it), so `strictly_greater_than(1,1)` raises
`NameError` (the undefined `element_index1`) instead of returning `False`. -/
theorem c5_counterexample :
    matAllZero (remove_label (add_dependency (POMSet.init ([0, 1] : List Nat)) 0 1 0 0).1 0 0).1.osize
        (remove_label (add_dependency (POMSet.init ([0, 1] : List Nat)) 0 1 0 0).1 0 0).1.order = true ∧
    (remove_label (add_dependency (POMSet.init ([0, 1] : List Nat)) 0 1 0 0).1 0 0).1.is_unordered = false ∧
    strictly_greater_than (remove_label (add_dependency (POMSet.init ([0, 1] : List Nat)) 0 1 0 0).1 0 0).1
        1 1 0 0 = .error .nameError := by
  decide

/-- C10 (amended): an occurrence index at or beyond the value's multiplicity makes
`add_dependency`, `remove_label` and `remove_dependency` fail with the OutOfRange
condition (`IndexError`) on whichever side carries the bad index, and makes the
weakly/strictly above/below queries fail the same way **provided the POMSet is not
flagged unordered** — on an unordered POMSet these queries return their unordered
default before any index validation (see the counterexample), and the pairwise
predicates never validate an index at all (unordered: default; ordered: `NameError`
from the misnamed parameter). -/
theorem c10_out_of_range (s : POMSet α) (e1 e2 : α) (i j : Nat)
    (hidx : multiplicity s e1 ≤ i) :
    (s.is_unordered = false →
      weakly_above s e1 i = .error .indexError ∧
      strictly_above s e1 i = .error .indexError ∧
      weakly_below s e1 i = .error .indexError ∧
      strictly_below s e1 i = .error .indexError) ∧
    (add_dependency s e1 e2 i j).2 = some .indexError ∧
    (add_dependency s e2 e1 j i).2 = some .indexError ∧
    (remove_label s e1 i).2 = some .indexError ∧
    (remove_dependency s e1 e2 i j).2 = some .indexError ∧
    (remove_dependency s e2 e1 j i).2 = some .indexError := by
  have hnone := lookupOcc_none s e1 i hidx
  refine ⟨?_, ?_, ?_, ?_, ?_, ?_⟩
  · intro hord
    refine ⟨?_, ?_, ?_, ?_⟩ <;>
      simp [weakly_above, strictly_above, weakly_below, strictly_below, rowQuery,
        rowQueryAt, hord, hnone]
  · unfold add_dependency
    rw [hnone]
  · unfold add_dependency
    cases hf : lookupOcc s e2 j with
    | none => rfl
    | some f => rw [hnone]
  · unfold remove_label
    rw [hnone]
  · unfold remove_dependency
    rw [hnone]
  · unfold remove_dependency
    cases hf : lookupOcc s e2 j with
    | none => rfl
    | some f => rw [hnone]

theorem c10_out_of_range_witness :
    (orderedPair.is_unordered = false →
      weakly_above orderedPair 0 5 = .error .indexError ∧
      strictly_above orderedPair 0 5 = .error .indexError ∧
      weakly_below orderedPair 0 5 = .error .indexError ∧
      strictly_below orderedPair 0 5 = .error .indexError) ∧
    (add_dependency orderedPair 0 1 5 0).2 = some .indexError ∧
    (add_dependency orderedPair 1 0 0 5).2 = some .indexError ∧
    (remove_label orderedPair 0 5).2 = some .indexError ∧
    (remove_dependency orderedPair 0 1 5 0).2 = some .indexError ∧
    (remove_dependency orderedPair 1 0 0 5).2 = some .indexError :=
  c10_out_of_range orderedPair 0 1 5 0 (by decide)

/-- C10 is false as stated: on an unordered POMSet, `weakly_above` with an occurrence
index far beyond the multiplicity returns the full label list instead of failing. -/
theorem c10_counterexample :
    multiplicity (POMSet.init ([0] : List Nat)) 0 ≤ 5 ∧
    weakly_above (POMSet.init ([0] : List Nat)) 0 5 = .ok [0] := by
  decide

/-! ### Hypergraph layer (hypergraph.py) -/

/-- Python dict lookup (keys are kept unique by `dictSet`). -/
def dictGet (d : List (α × β)) (k : α) : Option β :=
  match d with
  | [] => none
  | (k', v) :: d' => if k' = k then some v else dictGet d' k

/-- Python `d[k] = v`: replace the binding if the key is present, else append. -/
def dictSet (d : List (α × β)) (k : α) (v : β) : List (α × β) :=
  match d with
  | [] => [(k, v)]
  | (k', v') :: d' => if k' = k then (k, v) :: d' else (k', v') :: dictSet d' k v

variable {β : Type}

/-- The two mapping attributes of one `Hypergraph` object (`self.node`, `self.edge`).
How those attributes are *shared between instances* (they are class attributes in the
source) is modelled separately for C6; the operations below act on the dicts an
instance's attribute lookup resolves to. -/
structure Hypergraph (α : Type) where
  node : List (α × POMSet α)
  edge : List (α × POMSet α)

/-- `Hypergraph.add_node(new_node)`: `self.node[new_node] = POMSet([])`. -/
def add_node (H : Hypergraph α) (n : α) : Hypergraph α :=
  { H with node := dictSet H.node n (POMSet.init []) }

/-- `POMSet(edge_labels, edge_order)` as called by `add_edge`: with no order the POMSet
is unordered; with an explicit square matrix of side `dim` the constructor asserts
`dim = len(labels)` and derives `_is_unordered` from `np.all(order == 0)`. -/
def pomsetNew (labels : List α) (ord : Option (Nat × (Nat → Nat → Int))) :
    Except PyErr (POMSet α) :=
  match ord with
  | none => .ok (POMSet.init labels)
  | some (dim, A) =>
    if dim = labels.length then
      .ok { labels := labels
            size := labels.length
            support := pySet labels
            order := A
            osize := dim
            is_unordered := matAllZero dim A }
    else .error .assertionError

/-- The member loop of `add_edge`: for each member create the node if absent, then
`self.node[node].add_label(new_edge)`; an exception from `add_label` propagates with
the node's POMSet left in its partially-mutated state and later members unprocessed. -/
def addEdgeLoop (e : α) : List α → Hypergraph α → Hypergraph α × Option PyErr
  | [], H => (H, none)
  | n :: rest, H =>
    let H2 := if (dictGet H.node n).isSome then H else add_node H n
    match dictGet H2.node n with
    | none => (H2, some .keyError)
    | some p =>
      match add_label p e with
      | (p', some er) => ({ H2 with node := dictSet H2.node n p' }, some er)
      | (p', none) => addEdgeLoop e rest { H2 with node := dictSet H2.node n p' }

/-- `Hypergraph.add_edge(new_edge, edge_labels, edge_order)`: install the edge-side
POMSet, then run the member loop. -/
def add_edge (H : Hypergraph α) (e : α) (members : List α)
    (ord : Option (Nat × (Nat → Nat → Int))) : Hypergraph α × Option PyErr :=
  match pomsetNew members ord with
  | .error er => (H, some er)
  | .ok p => addEdgeLoop e members { H with edge := dictSet H.edge e p }

/-- `Hypergraph.neighbors(node)`: `self.node[node]` (a `KeyError` if absent) and then
`for edge in self.node[node]` — iterating the `POMSet` instance itself, which defines
neither `__iter__` nor `__getitem__`, so Python raises `TypeError` before any
neighbor is collected.  (The intended loop is over `.labels`.) -/
def neighbors (H : Hypergraph α) (n : α) : Except PyErr (List α) :=
  match dictGet H.node n with
  | none => .error .keyError
  | some _ => .error .typeError

/-- The `directed` argument of `breadth_first_search`. -/
inductive BFSMode where
  | undirected
  | weakly
  | strictly

/-- `Hypergraph._bfs_recursion(search_root_list, directed)`: the outer loop
`for node in search_root_list` looks up `self.node[node]` (`KeyError` if absent) and
then iterates `for e in self.node[node]` over the POMSet instance itself — a
`TypeError`, exactly as in `neighbors`.  With an empty root list the loops never run
and the recursion returns `[[]]`. -/
def bfsRecursion (H : Hypergraph α) (d : BFSMode) : List α → Except PyErr (List (List α))
  | [] => .ok [[]]
  | n :: _ =>
    match dictGet H.node n with
    | none => .error .keyError
    | some _ => .error .typeError

/-- `Hypergraph.breadth_first_search(root, directed)`:
`[[root], self._bfs_recursion([root], directed)]`; the recursive call always receives
the nonempty list `[root]`, so the result is its exception. -/
def breadth_first_search (H : Hypergraph α) (root : α) (d : BFSMode) :
    Except PyErr (List (List α)) :=
  bfsRecursion H d [root]

/-- A two-node hypergraph whose node POMSets are empty (as built by `add_node`). -/
def hgTwoNodes : Hypergraph Nat :=
  { node := [(0, POMSet.init []), (1, POMSet.init [])], edge := [] }

/-- C3: `add_edge` on a fresh hypergraph raises.  The first member's
`node[0].add_label(e)` hits the mis-sliced order copy in `add_label` (assigning a
`(0,0)` matrix into a `(0,1)` view raises `ValueError`), so `add_edge(100, [0, 1])`
propagates `ValueError`: the call does not return normally, node `1` is never
created, and the edge therefore never appears on member `1`'s side, violating
bidirectional incidence. -/
theorem c3_add_edge_fails :
    (add_edge { node := [], edge := [] } 100 [0, 1] none).2 = some PyErr.valueError ∧
    (dictGet (add_edge { node := [], edge := [] } 100 [0, 1] none).1.node 1).isNone = true ∧
    (dictGet (add_edge { node := [], edge := [] } 100 [0, 1] none).1.edge 100).isSome = true := by
  decide

/-- C4: `neighbors` never returns a set — on any present node it raises `TypeError`
(`for edge in self.node[node]` iterates the POMSet object, which is not iterable),
here shown on a node of `hgTwoNodes`. -/
theorem c4_neighbors_fails :
    neighbors hgTwoNodes 0 = .error PyErr.typeError := by
  decide

/-- C9: `breadth_first_search` never produces layers — `_bfs_recursion` raises
`TypeError` on its first iteration (`for e in self.node[node]` iterates the POMSet
object), for every directedness mode, here shown on `hgTwoNodes` with root 0. -/
theorem c9_bfs_fails :
    breadth_first_search hgTwoNodes 0 BFSMode.undirected = .error PyErr.typeError ∧
    breadth_first_search hgTwoNodes 0 BFSMode.weakly = .error PyErr.typeError ∧
    breadth_first_search hgTwoNodes 0 BFSMode.strictly = .error PyErr.typeError := by
  decide

/-! ### C6: class-level attribute sharing

`class Hypergraph` declares `node = {}` and `edge = {}` in the class body, and
`__init__` never assigns `self.node` or `self.edge` (with a `nodes` argument it writes
`self.node[node] = POMSet([])`, which *mutates* the dict that attribute lookup
resolves).  Python attribute lookup on an instance falls back to the class attribute
when the instance has none, so every constructor-built instance reads and mutates the
single class-level pair of dicts. -/

/-- The class-level attribute store of `Hypergraph` (`Hypergraph.node`,
`Hypergraph.edge`). -/
structure HGClassState (α : Type) where
  nodeC : List (α × POMSet α)
  edgeC : List (α × POMSet α)

/-- A constructor-built instance: `__init__` creates no instance attributes, so the
instance carries no own state; attribute lookup resolves to the class dicts. -/
structure HGInstance where
  mk ::

/-- Attribute lookup `self.node` for a constructor-built instance. -/
def instNodeDict (h : HGInstance) (cs : HGClassState α) : List (α × POMSet α) :=
  cs.nodeC

/-- `Hypergraph(nodes)`: returns a fresh instance; with `nodes` given, each
`self.node[node] = POMSet([])` mutates the dict resolved by attribute lookup —
the class-level dict. -/
def hypergraphNew (cs : HGClassState α) (nodes : Option (List α)) :
    HGInstance × HGClassState α :=
  match nodes with
  | none => (HGInstance.mk, cs)
  | some ns =>
    (HGInstance.mk,
      { cs with nodeC := ns.foldl (fun d n => dictSet d n (POMSet.init [])) cs.nodeC })

/-- `h.add_node(n)` executed by instance `h`: mutates the class-level dict. -/
def instAddNode (h : HGInstance) (cs : HGClassState α) (n : α) : HGClassState α :=
  { cs with nodeC := dictSet (instNodeDict h cs) n (POMSet.init []) }

/-- C6: distinct `Hypergraph` values share mutable state.  Construct two separate
instances from an empty class state; adding node 0 through the first makes it visible
through the second's `node` attribute — both resolve to the one class-level dict, so
the constructor initializes nothing instance-owned. -/
theorem c6_instances_share_state :
    (dictGet
      (instNodeDict (hypergraphNew (α := Nat) { nodeC := [], edgeC := [] } none).1
        (instAddNode (hypergraphNew (hypergraphNew (α := Nat) { nodeC := [], edgeC := [] } none).2 none).1
          (hypergraphNew (hypergraphNew (α := Nat) { nodeC := [], edgeC := [] } none).2 none).2 0))
      0).isSome = true := by
  decide

/-! ### Cliquifications (C8)

`networkx.Graph` is an undirected simple graph: `add_edge(a, b)` is a no-op when the
pair (in either orientation) is already present, and `(a, a)` is a self-loop, which
networkx stores like any other edge.  The derived edge collection is modelled as the
insertion-ordered list of stored pairs with the no-duplicate insert. -/

/-- Whether the unordered pair `{a, b}` is stored in the graph. -/
def upairMemB (g : List (α × α)) (a b : α) : Bool :=
  g.any (fun p => (decide (p.1 = a) && decide (p.2 = b)) || (decide (p.1 = b) && decide (p.2 = a)))

/-- `Graph.add_edge(a, b)`. -/
def nxAdd (g : List (α × α)) (a b : α) : List (α × α) :=
  if upairMemB g a b then g else g ++ [(a, b)]

/-- `for n2 in l: result.add_edge(n1, n2)`. -/
def nxAddList (g : List (α × α)) (n1 : α) (l : List α) : List (α × α) :=
  l.foldl (fun g n2 => nxAdd g n1 n2) g

/-- `itertools.combinations(l, 2)`: position pairs `i < j` in order. -/
def combos : List α → List (α × α)
  | [] => []
  | x :: xs => xs.map (fun y => (x, y)) ++ combos xs

/-- Edge loop of `networkx_undirected_cliquification`. -/
def undirEdgeLoop : List (α × POMSet α) → List (α × α) → List (α × α)
  | [], g => g
  | (_, p) :: es, g =>
    undirEdgeLoop es ((combos p.labels).foldl (fun g pr => nxAdd g pr.1 pr.2) g)

/-- `Hypergraph.networkx_undirected_cliquification` (edge collection only). -/
def networkx_undirected_cliquification (H : Hypergraph α) : List (α × α) :=
  undirEdgeLoop H.edge []

/-- Innermost loop of the directed cliquifications:
`for n2 in sel(n1, n1_index): result.add_edge(n1, n2)` for each occurrence index. -/
def cliqIdxLoop (sel : POMSet α → α → Nat → Except PyErr (List α)) (p : POMSet α)
    (n1 : α) : List Nat → List (α × α) → Except PyErr (List (α × α))
  | [], g => .ok g
  | i :: is, g =>
    match sel p n1 i with
    | .error e => .error e
    | .ok l => cliqIdxLoop sel p n1 is (nxAddList g n1 l)

/-- `for n1 in self.edge[edge].support: for n1_index in range(multiplicity(n1)): ...`. -/
def cliqSupLoop (sel : POMSet α → α → Nat → Except PyErr (List α)) (p : POMSet α) :
    List α → List (α × α) → Except PyErr (List (α × α))
  | [], g => .ok g
  | n1 :: ns, g =>
    match cliqIdxLoop sel p n1 (List.range (multiplicity p n1)) g with
    | .error e => .error e
    | .ok g' => cliqSupLoop sel p ns g'

/-- `for edge in self.edge: ...` (a raised exception aborts the derivation). -/
def cliqEdgeLoop (sel : POMSet α → α → Nat → Except PyErr (List α)) :
    List (α × POMSet α) → List (α × α) → Except PyErr (List (α × α))
  | [], g => .ok g
  | (_, p) :: es, g =>
    match cliqSupLoop sel p p.support g with
    | .error e => .error e
    | .ok g' => cliqEdgeLoop sel es g'

/-- `Hypergraph.networkx_weakly_directed_cliquification` (edge collection only): the
loop body calls `weakly_above(n1, n1_index)`. -/
def networkx_weakly_directed_cliquification (H : Hypergraph α) :
    Except PyErr (List (α × α)) :=
  cliqEdgeLoop weakly_above H.edge []

/-- `Hypergraph.networkx_strictly_directed_cliquification` (edge collection only): the
loop body calls `strictly_above(n1, n1_index)` and is otherwise identical. -/
def networkx_strictly_directed_cliquification (H : Hypergraph α) :
    Except PyErr (List (α × α)) :=
  cliqEdgeLoop strictly_above H.edge []

/-- Executable subset test on stored edge collections, up to pair orientation. -/
def upairSubB (g1 g2 : List (α × α)) : Bool :=
  g1.all (fun p => upairMemB g2 p.1 p.2)

/-- No two stored pairs describe the same unordered pair. -/
def NoDupUP (g : List (α × α)) : Prop :=
  List.Pairwise (fun p q => ¬((p.1 = q.1 ∧ p.2 = q.2) ∨ (p.1 = q.2 ∧ p.2 = q.1))) g

theorem upairMemB_iff (g : List (α × α)) (a b : α) :
    upairMemB g a b = true ↔ ∃ p ∈ g, (p.1 = a ∧ p.2 = b) ∨ (p.1 = b ∧ p.2 = a) := by
  simp [upairMemB, List.any_eq_true]

theorem upairMemB_symm (g : List (α × α)) (a b : α) :
    upairMemB g a b = true ↔ upairMemB g b a = true := by
  rw [upairMemB_iff, upairMemB_iff]
  constructor <;> rintro ⟨p, hp, h⟩ <;> exact ⟨p, hp, h.symm⟩

theorem upairMemB_of_mem (g : List (α × α)) (p : α × α) (hp : p ∈ g) :
    upairMemB g p.1 p.2 = true :=
  (upairMemB_iff g p.1 p.2).mpr ⟨p, hp, Or.inl ⟨rfl, rfl⟩⟩

theorem upairMemB_nxAdd (g : List (α × α)) (a b x y : α) :
    upairMemB (nxAdd g a b) x y = true ↔
      upairMemB g x y = true ∨ (x = a ∧ y = b) ∨ (x = b ∧ y = a) := by
  unfold nxAdd
  split
  · rename_i hmem
    constructor
    · exact Or.inl
    · rintro (h | ⟨rfl, rfl⟩ | ⟨rfl, rfl⟩)
      · exact h
      · exact hmem
      · exact (upairMemB_symm g x y).mpr hmem
  · rw [upairMemB_iff, upairMemB_iff]
    constructor
    · rintro ⟨p, hp, h⟩
      rw [List.mem_append] at hp
      rcases hp with hp | hp
      · exact Or.inl ⟨p, hp, h⟩
      · simp only [List.mem_singleton] at hp
        subst hp
        rcases h with ⟨h1, h2⟩ | ⟨h1, h2⟩
        · exact Or.inr (Or.inl ⟨h1.symm, h2.symm⟩)
        · exact Or.inr (Or.inr ⟨h2.symm, h1.symm⟩)
    · rintro (⟨p, hp, h⟩ | ⟨h1, h2⟩ | ⟨h1, h2⟩)
      · exact ⟨p, List.mem_append_left _ hp, h⟩
      · exact ⟨(a, b), List.mem_append_right _ (List.mem_singleton.mpr rfl),
          Or.inl ⟨h1.symm, h2.symm⟩⟩
      · exact ⟨(a, b), List.mem_append_right _ (List.mem_singleton.mpr rfl),
          Or.inr ⟨h2.symm, h1.symm⟩⟩

theorem upairMemB_nxAdd_of_mem (g : List (α × α)) (a b x y : α)
    (h : upairMemB g x y = true) : upairMemB (nxAdd g a b) x y = true :=
  (upairMemB_nxAdd g a b x y).mpr (Or.inl h)

theorem upairMemB_nxAdd_self (g : List (α × α)) (a b : α) :
    upairMemB (nxAdd g a b) a b = true :=
  (upairMemB_nxAdd g a b a b).mpr (Or.inr (Or.inl ⟨rfl, rfl⟩))

theorem upairMemB_nxAddList_of_mem (n : α) (x y : α) :
    ∀ (l : List α) (g : List (α × α)), upairMemB g x y = true →
      upairMemB (nxAddList g n l) x y = true := by
  intro l
  induction l with
  | nil => intro g h; exact h
  | cons c l ih =>
    intro g h
    exact ih (nxAdd g n c) (upairMemB_nxAdd_of_mem g n c x y h)

theorem upairMemB_nxAddList_self (n : α) (b : α) :
    ∀ (l : List α) (g : List (α × α)), b ∈ l → upairMemB (nxAddList g n l) n b = true := by
  intro l
  induction l with
  | nil => intro g h; simp at h
  | cons c l ih =>
    intro g h
    rcases List.mem_cons.mp h with hbc | h
    · rw [hbc]
      exact upairMemB_nxAddList_of_mem n n c l (nxAdd g n c) (upairMemB_nxAdd_self g n c)
    · exact ih (nxAdd g n c) h

theorem upairMemB_nxAddList_elim (n : α) (x y : α) :
    ∀ (l : List α) (g : List (α × α)), upairMemB (nxAddList g n l) x y = true →
      upairMemB g x y = true ∨ ∃ b ∈ l, (x = n ∧ y = b) ∨ (x = b ∧ y = n) := by
  intro l
  induction l with
  | nil => intro g h; exact Or.inl h
  | cons c l ih =>
    intro g h
    rcases ih (nxAdd g n c) h with h' | ⟨b, hb, hcase⟩
    · rcases (upairMemB_nxAdd g n c x y).mp h' with h'' | ⟨h1, h2⟩ | ⟨h1, h2⟩
      · exact Or.inl h''
      · exact Or.inr ⟨c, List.mem_cons_self c l, Or.inl ⟨h1, h2⟩⟩
      · exact Or.inr ⟨c, List.mem_cons_self c l, Or.inr ⟨h1, h2⟩⟩
    · exact Or.inr ⟨b, List.mem_cons_of_mem c hb, hcase⟩

theorem inv_nxAddList (g1 g2 : List (α × α)) (n : α) (l1 l2 : List α)
    (hinv : ∀ a b, upairMemB g1 a b = true → upairMemB g2 a b = true)
    (hsub : ∀ x ∈ l1, x ∈ l2) :
    ∀ a b, upairMemB (nxAddList g1 n l1) a b = true →
      upairMemB (nxAddList g2 n l2) a b = true := by
  intro a b h
  rcases upairMemB_nxAddList_elim n a b l1 g1 h with h' | ⟨c, hc, hcase⟩
  · exact upairMemB_nxAddList_of_mem n a b l2 g2 (hinv a b h')
  · rcases hcase with ⟨h1, h2⟩ | ⟨h1, h2⟩
    · rw [h1, h2]
      exact upairMemB_nxAddList_self n c l2 g2 (hsub c hc)
    · rw [h1, h2]
      exact (upairMemB_symm _ c n).mpr (upairMemB_nxAddList_self n c l2 g2 (hsub c hc))

/-- When two row queries share the POMSet and address, a pointwise-weaker mask and a
larger unordered default give a superset result. -/
theorem rowQuery_sub (s : POMSet α) (d1 d2 : List α) (p1 p2 : Int → Bool)
    (hd : ∀ x ∈ d1, x ∈ d2) (hp : ∀ v, p1 v = true → p2 v = true)
    (e : α) (idx : Nat) (l1 l2 : List α)
    (h1 : rowQuery s d1 p1 e idx = .ok l1) (h2 : rowQuery s d2 p2 e idx = .ok l2) :
    ∀ x ∈ l1, x ∈ l2 := by
  unfold rowQuery at h1 h2
  by_cases hu : s.is_unordered
  · rw [if_pos hu] at h1 h2
    cases h1
    cases h2
    exact hd
  · rw [if_neg hu] at h1 h2
    cases hl : lookupOcc s e idx with
    | none =>
      rw [hl] at h1
      simp only [rowQueryAt] at h1
      exact absurd h1 (by simp)
    | some i =>
      rw [hl] at h1 h2
      simp only [rowQueryAt] at h1 h2
      by_cases hm : s.labels.length = s.osize
      · rw [if_pos hm] at h1 h2
        cases h1
        cases h2
        intro x hx
        unfold maskSelect at hx ⊢
        rw [List.mem_filterMap] at hx ⊢
        obtain ⟨j, hj, hcond⟩ := hx
        refine ⟨j, hj, ?_⟩
        by_cases hv : p1 (s.order i j) = true
        · rw [if_pos hv] at hcond
          rw [if_pos (hp _ hv)]
          exact hcond
        · rw [if_neg hv] at hcond
          exact absurd hcond (by simp)
      · rw [if_neg hm] at h1
        exact absurd h1 (by simp)

/-- Whatever `strictly_above(n, i)` returns, `weakly_above(n, i)` on the same POMSet
and occurrence returns a superset (`order[i,j] = 1` implies `order[i,j] ≠ -1`; the
unordered defaults are `[]` and the full label list). -/
theorem strictly_above_sub_weakly_above (p : POMSet α) (n : α) (i : Nat)
    (l1 l2 : List α) (h1 : strictly_above p n i = .ok l1)
    (h2 : weakly_above p n i = .ok l2) : ∀ x ∈ l1, x ∈ l2 := by
  refine rowQuery_sub p [] p.labels _ _ ?_ ?_ n i l1 l2 h1 h2
  · intro x hx
    simp at hx
  · intro v hv
    simp only [decide_eq_true_eq] at hv
    simp [hv]

theorem cliqIdxLoop_inv (sel1 sel2 : POMSet α → α → Nat → Except PyErr (List α))
    (hSel : ∀ p n i l1 l2, sel1 p n i = .ok l1 → sel2 p n i = .ok l2 → ∀ x ∈ l1, x ∈ l2)
    (p : POMSet α) (n : α) :
    ∀ (is : List Nat) (g1 g2 S W : List (α × α)),
      cliqIdxLoop sel1 p n is g1 = .ok S → cliqIdxLoop sel2 p n is g2 = .ok W →
      (∀ a b, upairMemB g1 a b = true → upairMemB g2 a b = true) →
      ∀ a b, upairMemB S a b = true → upairMemB W a b = true := by
  intro is
  induction is with
  | nil =>
    intro g1 g2 S W h1 h2 hinv
    cases h1; cases h2
    exact hinv
  | cons i is ih =>
    intro g1 g2 S W h1 h2 hinv
    unfold cliqIdxLoop at h1 h2
    cases hs1 : sel1 p n i with
    | error e => rw [hs1] at h1; cases h1
    | ok l1 =>
      cases hs2 : sel2 p n i with
      | error e => rw [hs2] at h2; cases h2
      | ok l2 =>
        rw [hs1] at h1
        rw [hs2] at h2
        exact ih (nxAddList g1 n l1) (nxAddList g2 n l2) S W h1 h2
          (inv_nxAddList g1 g2 n l1 l2 hinv (hSel p n i l1 l2 hs1 hs2))

theorem cliqSupLoop_inv (sel1 sel2 : POMSet α → α → Nat → Except PyErr (List α))
    (hSel : ∀ p n i l1 l2, sel1 p n i = .ok l1 → sel2 p n i = .ok l2 → ∀ x ∈ l1, x ∈ l2)
    (p : POMSet α) :
    ∀ (ns : List α) (g1 g2 S W : List (α × α)),
      cliqSupLoop sel1 p ns g1 = .ok S → cliqSupLoop sel2 p ns g2 = .ok W →
      (∀ a b, upairMemB g1 a b = true → upairMemB g2 a b = true) →
      ∀ a b, upairMemB S a b = true → upairMemB W a b = true := by
  intro ns
  induction ns with
  | nil =>
    intro g1 g2 S W h1 h2 hinv
    cases h1; cases h2
    exact hinv
  | cons n1 ns ih =>
    intro g1 g2 S W h1 h2 hinv
    unfold cliqSupLoop at h1 h2
    cases hs1 : cliqIdxLoop sel1 p n1 (List.range (multiplicity p n1)) g1 with
    | error e => rw [hs1] at h1; cases h1
    | ok g1' =>
      cases hs2 : cliqIdxLoop sel2 p n1 (List.range (multiplicity p n1)) g2 with
      | error e => rw [hs2] at h2; cases h2
      | ok g2' =>
        rw [hs1] at h1
        rw [hs2] at h2
        exact ih g1' g2' S W h1 h2
          (cliqIdxLoop_inv sel1 sel2 hSel p n1 _ g1 g2 g1' g2' hs1 hs2 hinv)

theorem cliqEdgeLoop_inv (sel1 sel2 : POMSet α → α → Nat → Except PyErr (List α))
    (hSel : ∀ p n i l1 l2, sel1 p n i = .ok l1 → sel2 p n i = .ok l2 → ∀ x ∈ l1, x ∈ l2) :
    ∀ (es : List (α × POMSet α)) (g1 g2 S W : List (α × α)),
      cliqEdgeLoop sel1 es g1 = .ok S → cliqEdgeLoop sel2 es g2 = .ok W →
      (∀ a b, upairMemB g1 a b = true → upairMemB g2 a b = true) →
      ∀ a b, upairMemB S a b = true → upairMemB W a b = true := by
  intro es
  induction es with
  | nil =>
    intro g1 g2 S W h1 h2 hinv
    cases h1; cases h2
    exact hinv
  | cons ep es ih =>
    obtain ⟨en, p⟩ := ep
    intro g1 g2 S W h1 h2 hinv
    unfold cliqEdgeLoop at h1 h2
    cases hs1 : cliqSupLoop sel1 p p.support g1 with
    | error e => rw [hs1] at h1; cases h1
    | ok g1' =>
      cases hs2 : cliqSupLoop sel2 p p.support g2 with
      | error e => rw [hs2] at h2; cases h2
      | ok g2' =>
        rw [hs1] at h1
        rw [hs2] at h2
        exact ih g1' g2' S W h1 h2
          (cliqSupLoop_inv sel1 sel2 hSel p p.support g1 g2 g1' g2' hs1 hs2 hinv)

theorem noDupUP_nxAdd (g : List (α × α)) (a b : α) (h : NoDupUP g) :
    NoDupUP (nxAdd g a b) := by
  unfold nxAdd
  split
  · exact h
  · rename_i hmem
    unfold NoDupUP at h ⊢
    rw [List.pairwise_append]
    refine ⟨h, by simp, ?_⟩
    intro p hp q hq
    simp only [List.mem_singleton] at hq
    subst hq
    intro hcase
    apply hmem
    rw [upairMemB_iff]
    exact ⟨p, hp, hcase⟩

theorem noDupUP_nxAddList (n : α) :
    ∀ (l : List α) (g : List (α × α)), NoDupUP g → NoDupUP (nxAddList g n l) := by
  intro l
  induction l with
  | nil => intro g h; exact h
  | cons c l ih => intro g h; exact ih (nxAdd g n c) (noDupUP_nxAdd g n c h)

theorem noDupUP_cliqIdxLoop (sel : POMSet α → α → Nat → Except PyErr (List α))
    (p : POMSet α) (n : α) :
    ∀ (is : List Nat) (g S : List (α × α)),
      cliqIdxLoop sel p n is g = .ok S → NoDupUP g → NoDupUP S := by
  intro is
  induction is with
  | nil => intro g S h hg; cases h; exact hg
  | cons i is ih =>
    intro g S h hg
    unfold cliqIdxLoop at h
    cases hs : sel p n i with
    | error e => rw [hs] at h; cases h
    | ok l =>
      rw [hs] at h
      exact ih (nxAddList g n l) S h (noDupUP_nxAddList n l g hg)

theorem noDupUP_cliqSupLoop (sel : POMSet α → α → Nat → Except PyErr (List α))
    (p : POMSet α) :
    ∀ (ns : List α) (g S : List (α × α)),
      cliqSupLoop sel p ns g = .ok S → NoDupUP g → NoDupUP S := by
  intro ns
  induction ns with
  | nil => intro g S h hg; cases h; exact hg
  | cons n1 ns ih =>
    intro g S h hg
    unfold cliqSupLoop at h
    cases hs : cliqIdxLoop sel p n1 (List.range (multiplicity p n1)) g with
    | error e => rw [hs] at h; cases h
    | ok g' =>
      rw [hs] at h
      exact ih g' S h (noDupUP_cliqIdxLoop sel p n1 _ g g' hs hg)

theorem noDupUP_cliqEdgeLoop (sel : POMSet α → α → Nat → Except PyErr (List α)) :
    ∀ (es : List (α × POMSet α)) (g S : List (α × α)),
      cliqEdgeLoop sel es g = .ok S → NoDupUP g → NoDupUP S := by
  intro es
  induction es with
  | nil => intro g S h hg; cases h; exact hg
  | cons ep es ih =>
    obtain ⟨en, p⟩ := ep
    intro g S h hg
    unfold cliqEdgeLoop at h
    cases hs : cliqSupLoop sel p p.support g with
    | error e => rw [hs] at h; cases h
    | ok g' =>
      rw [hs] at h
      exact ih g' S h (noDupUP_cliqSupLoop sel p p.support g g' hs hg)

theorem noDupUP_foldl_nxAdd :
    ∀ (l : List (α × α)) (g : List (α × α)), NoDupUP g →
      NoDupUP (l.foldl (fun g pr => nxAdd g pr.1 pr.2) g) := by
  intro l
  induction l with
  | nil => intro g h; exact h
  | cons pr l ih => intro g h; exact ih (nxAdd g pr.1 pr.2) (noDupUP_nxAdd g pr.1 pr.2 h)

theorem noDupUP_undirEdgeLoop :
    ∀ (es : List (α × POMSet α)) (g : List (α × α)), NoDupUP g →
      NoDupUP (undirEdgeLoop es g) := by
  intro es
  induction es with
  | nil => intro g h; exact h
  | cons ep es ih =>
    obtain ⟨en, p⟩ := ep
    intro g h
    unfold undirEdgeLoop
    exact ih _ (noDupUP_foldl_nxAdd (combos p.labels) g h)

/-- A hypergraph holding one unordered two-member hyperedge `10 = {0, 1}`, with both
incidence sides present (the state `add_edge(10, [0, 1])` was intended to build). -/
def hgOneEdge : Hypergraph Nat :=
  { node := [(0, POMSet.init [10]), (1, POMSet.init [10])],
    edge := [(10, POMSet.init [0, 1])] }

/-- C8 (amended): for every Hypergraph, whenever the two directed derivations return
(they raise no exception on well-formed states), the strictly-directed clique edge-set
is a subset of the weakly-directed clique edge-set, and all three derived edge
collections are sets — each unordered pair is stored at most once however many
hyperedges witness it (networkx `Graph.add_edge` deduplicates).  The claim's remaining
parts fail: self-pairs are *not* excluded — every occurrence is weakly above itself
(`order[i,i] = 0` is not `-1`), so the weakly-directed edge-set generally contains
`(n, n)` — and consequently it is not a subset of the undirected edge-set, which
contains self-pairs only for repeated members (see the counterexample). -/
theorem c8_cliquification_monotone (H : Hypergraph α) (S W : List (α × α))
    (hS : networkx_strictly_directed_cliquification H = .ok S)
    (hW : networkx_weakly_directed_cliquification H = .ok W) :
    upairSubB S W = true ∧ NoDupUP S ∧ NoDupUP W ∧
      NoDupUP (networkx_undirected_cliquification H) := by
  have hinv : ∀ a b, upairMemB S a b = true → upairMemB W a b = true := by
    refine cliqEdgeLoop_inv strictly_above weakly_above ?_ H.edge [] [] S W hS hW ?_
    · intro p n i l1 l2 h1 h2
      exact strictly_above_sub_weakly_above p n i l1 l2 h1 h2
    · intro a b h
      simp [upairMemB] at h
  refine ⟨?_, ?_, ?_, ?_⟩
  · rw [upairSubB, List.all_eq_true]
    intro p hp
    exact hinv p.1 p.2 (upairMemB_of_mem S p hp)
  · exact noDupUP_cliqEdgeLoop strictly_above H.edge [] S hS List.Pairwise.nil
  · exact noDupUP_cliqEdgeLoop weakly_above H.edge [] W hW List.Pairwise.nil
  · exact noDupUP_undirEdgeLoop H.edge [] List.Pairwise.nil

theorem c8_cliquification_monotone_witness :
    upairSubB [] [(0, 0), (0, 1), (1, 1)] = true ∧ NoDupUP ([] : List (Nat × Nat)) ∧
    NoDupUP [(0, 0), (0, 1), (1, 1)] ∧
    NoDupUP (networkx_undirected_cliquification hgOneEdge) :=
  c8_cliquification_monotone hgOneEdge [] [(0, 0), (0, 1), (1, 1)] (by decide) (by decide)

/-- C8 is false as stated: on the one-edge hypergraph `10 = {0, 1}` (unordered), the
weakly-directed cliquification stores the self-pair `(0, 0)` (occurrence 0 is weakly
above itself), while the undirected cliquification — built from
`itertools.combinations`, which never pairs a position with itself — does not, so the
weakly-directed edge-set is not a subset of the undirected one and self-pairs are not
excluded. -/
theorem c8_counterexample :
    networkx_weakly_directed_cliquification hgOneEdge = .ok [(0, 0), (0, 1), (1, 1)] ∧
    upairMemB [(0, 0), (0, 1), (1, 1)] 0 0 = true ∧
    upairMemB (networkx_undirected_cliquification hgOneEdge) 0 0 = false := by
  decide

end HypergraphModel
